import Mathlib

/-!
# Verification of `supernote-sync.py`

A shallow embedding, in Lean 4, of the one-way Supernote-to-local sync
script (`src/supernote-sync.py`), together with theorems settling the
specification claims about it.

Strings are modelled as `List Char`.  The Python `os.path` functions used
by the script (`os.path.join`, `os.path.abspath`, `os.path.splitext`,
`str.split`, `str.endswith`) are embedded faithfully from CPython's
`posixpath` implementation.
-/

namespace SupernoteSync

/-- A string, modelled as its list of characters. -/
abbrev Str := List Char

/-- `s.data` as the conversion from Lean string literals. -/
def str (s : String) : Str := s.data

/-- Python `str.split('/')` : splitting an empty string gives `[""]`,
and every `'/'` starts a new (possibly empty) component. -/
def splitSlash : Str → List Str
  | [] => [[]]
  | c :: cs =>
    let r := splitSlash cs
    if c = '/' then [] :: r
    else
      match r with
      | [] => [[c]]
      | h :: t => (c :: h) :: t

/-- Python `'/'.join(comps)`. -/
def joinComps : List Str → Str
  | [] => []
  | [c] => c
  | c :: cs => c ++ '/' :: joinComps cs

/-- Whether a path is absolute: Python `path.startswith('/')`. -/
def isAbs (p : Str) : Bool :=
  match p with
  | [] => false
  | c :: _ => c = '/'

/-- Python `posixpath.join(a, b)` for a single extra component `b`. -/
def pathJoin (a b : Str) : Str :=
  if isAbs b then b
  else if a = [] ∨ a.getLast? = some '/' then a ++ b
  else a ++ '/' :: b

/-- The `..`-collapsing loop of CPython `posixpath.normpath`:
components `''` and `'.'` are dropped; `'..'` pops the accumulator unless
the path is relative and the accumulator is empty (or already ends with
`'..'`), in which case it is kept. -/
def normComps (absFlag : Bool) : List Str → List Str → List Str
  | acc, [] => acc
  | acc, c :: cs =>
    if c = [] ∨ c = str "." then normComps absFlag acc cs
    else if c ≠ str ".." ∨ (¬absFlag ∧ acc = []) ∨ acc.getLast? = some (str "..") then
      normComps absFlag (acc ++ [c]) cs
    else
      normComps absFlag acc.dropLast cs

/-- The number of leading slashes CPython `posixpath.normpath` preserves:
`//p` (but not `///p`) keeps two, any other absolute path keeps one. -/
def initialSlashes (p : Str) : Nat :=
  match p with
  | [] => 0
  | c :: rest =>
    if c = '/' then
      match rest with
      | [] => 1
      | c₂ :: rest₂ =>
        if c₂ = '/' then
          match rest₂ with
          | [] => 2
          | c₃ :: _ => if c₃ = '/' then 1 else 2
        else 1
    else 0

/-- CPython `posixpath.normpath`. -/
def normpath (p : Str) : Str :=
  if p = [] then str "."
  else
    let slashes := initialSlashes p
    let comps := normComps (slashes ≠ 0) [] (splitSlash p)
    let body := List.replicate slashes '/' ++ joinComps comps
    if body = [] then str "." else body

/-- CPython `posixpath.abspath`: `normpath(join(cwd, path))`, which is
`normpath path` whenever `path` is already absolute. -/
def abspath (cwd p : Str) : Str :=
  normpath (if isAbs p then p else pathJoin cwd p)

/-- Python `str.endswith(suffix)`. -/
def endsWith (p suffix : Str) : Bool :=
  suffix.isSuffixOf p

/-- Index of the last occurrence of `c` in `l`, as Python `str.rfind`
returns it: `-1` when absent. -/
def rfindI (l : Str) (c : Char) : Int :=
  match l with
  | [] => -1
  | x :: xs =>
    let r := rfindI xs c
    if r ≥ 0 then r + 1
    else if x = c then 0
    else -1

/-- The root part of CPython `posixpath.splitext`: split at the last dot
provided it lies strictly after the last slash and some non-dot character
sits between them (leading dots of the basename never start an
extension). -/
def splitextRoot (p : Str) : Str :=
  let si := rfindI p '/'
  let di := rfindI p '.'
  if di > si ∧ ∃ k ∈ List.range p.length, si < (k : Int) ∧ (k : Int) < di ∧ p.get? k ≠ some '.' then
    p.take di.toNat
  else p

/-- A plain path component: nonempty, slash-free, and not one of the
special components `.` and `..`. -/
def goodComp (c : Str) : Prop :=
  c ≠ [] ∧ '/' ∉ c ∧ c ≠ str "." ∧ c ≠ str ".."

instance (c : Str) : Decidable (goodComp c) := by
  unfold goodComp; infer_instance

/-- The absolute path with the given components:
`'/' ++ '/'.join(comps)`. -/
def mkAbs (cs : List Str) : Str := '/' :: joinComps cs

/-! ## Data model: remote entries, run configuration, effects -/

/-- One item of a listing's `fileList`: the fields of the JSON dict that
the script reads (`item["uri"]`, `item["name"]`, `item["isDirectory"]`). -/
structure Entry where
  uri : Str
  name : Str
  isDirectory : Bool
deriving DecidableEq, Repr

/-- The per-run parameters threaded to `worker`:
`root_url`, `output_dir`, `should_convert`, and the process working
directory (used only by `os.path.abspath` on relative paths). -/
structure Config where
  rootUrl : Str
  outputDir : Str
  shouldConvert : Bool
  cwd : Str
deriving Repr

/-- Errors a worker iteration can hit, per the script's call sites:
`read_directory` raising (`RuntimeError` / JSON decode), or
`convert_to_pdf` raising.  `wget` failures are invisible (see
`download_file`). -/
inductive SyncError where
  | listingError
  | conversionError
deriving DecidableEq, Repr

/-- Observable side effects of one worker iteration, in program order. -/
inductive Effect where
  | makedirs (parentDir : Str)
  | listing (url : Str)
  | download (url filePath : Str)
  | logDownloaded (name filePath : Str)
  | convert (filePath pdfFilePath : Str)
  | logConverted (name : Str)
deriving DecidableEq, Repr

/-- The environment a worker runs against: what each listing URL returns,
whether conversion of a given file succeeds, and the exit code `wget`
would report for each URL. -/
structure Env where
  listing : Str → Except SyncError (List Entry)
  convertResult : Str → Except SyncError Unit
  wgetExit : Str → Int

/-- `download_file` (lines 78-82): spawn `wget -O output_path url`, await
`proc.communicate()`, and return.  The exit status is never inspected, so
the call always returns normally. -/
def download_file (wgetExit : Str → Int) (url outputPath : Str) : Except SyncError Unit :=
  let _exitStatus := wgetExit url
  let _outputPath := outputPath
  Except.ok ()

/-- `parent_dir` of line 110:
`os.path.abspath(os.path.join(output_dir + item["uri"], os.pardir))`. -/
def parentDirOf (cfg : Config) (uri : Str) : Str :=
  abspath cfg.cwd (pathJoin (cfg.outputDir ++ uri) (str ".."))

/-- `filepath` of line 118: `os.path.join(parent_dir, item["name"])`. -/
def filePathOf (cfg : Config) (item : Entry) : Str :=
  pathJoin (parentDirOf cfg item.uri) item.name

/-- The result of one iteration of `worker`'s `while True` body on a
single dequeued item: the effects performed, the child items enqueued,
whether `q.task_done()` (line 127) was reached, and the exception that
escaped, if any. -/
structure IterResult where
  effects : List Effect
  enqueued : List Entry
  taskDone : Bool
  failure : Option SyncError
deriving DecidableEq, Repr

/-- One iteration of `worker` (lines 107-127) on a dequeued `item`.
An exception from `read_directory` or `convert_to_pdf` propagates out of
the loop body before `q.task_done()` runs; the `async with semaphore`
block releases the permit either way (permits are tracked in the
scheduler model below, not here). -/
def workerIter (env : Env) (cfg : Config) (item : Entry) : IterResult :=
  let itemUrl := cfg.rootUrl ++ item.uri
  let parentDir := parentDirOf cfg item.uri
  if item.isDirectory then
    match env.listing itemUrl with
    | Except.error e =>
      ⟨[Effect.makedirs parentDir, Effect.listing itemUrl], [], false, some e⟩
    | Except.ok children =>
      ⟨[Effect.makedirs parentDir, Effect.listing itemUrl], children, true, none⟩
  else
    let filepath := filePathOf cfg item
    match download_file env.wgetExit itemUrl filepath with
    | Except.error e => ⟨[Effect.makedirs parentDir, Effect.download itemUrl filepath], [], false, some e⟩
    | Except.ok _ =>
      let base := [Effect.makedirs parentDir, Effect.download itemUrl filepath,
                   Effect.logDownloaded item.name filepath]
      if cfg.shouldConvert ∧ endsWith filepath (str ".note") then
        let pdfFilepath := splitextRoot filepath ++ str ".pdf"
        match env.convertResult filepath with
        | Except.error e => ⟨base ++ [Effect.convert filepath pdfFilepath], [], false, some e⟩
        | Except.ok _ =>
          ⟨base ++ [Effect.convert filepath pdfFilepath, Effect.logConverted item.name], [], true, none⟩
      else ⟨base, [], true, none⟩

/-! ## `read_directory` (lines 85-103)

The listing response is a list of lines (`html.splitlines()`); the script
scans for the first line where `re.search(r"const json = '(.*?)'", line)`
matches, feeds the captured group to `json.loads`, and returns
`data["fileList"]`.  `if not data` (line 100) raises for a missing match
and also for a falsy parse result.  `json.loads` itself is kept abstract
(a parameter), since its implementation is not part of this repository. -/

/-- A JSON value, as far as Python truthiness and dict access need. -/
inductive Json where
  | null
  | bool (b : Bool)
  | num (n : Int)
  | string (s : Str)
  | arr (elems : List Json)
  | obj (fields : List (Str × Json))

/-- Python falsiness of a JSON-decoded value: `None`, `False`, `0`, `""`,
`[]` and `{}` are falsy. -/
def falsy : Json → Bool
  | Json.null => true
  | Json.bool b => !b
  | Json.num n => n = 0
  | Json.string s => s.isEmpty
  | Json.arr elems => elems.isEmpty
  | Json.obj fields => fields.isEmpty

/-- Python dict access `d[key]` on a decoded object: `none` models the
`KeyError`/`TypeError` exceptions. -/
def getField : Json → Str → Option Json
  | Json.obj fields, key => (fields.find? (fun f => f.1 = key)).map (·.2)
  | _, _ => none

/-- The literal `const json = '` that `re.search` looks for. -/
def jsonPat : Str := str "const json = \x27"

/-- Characters strictly before the next `'`, or `none` if no `'` follows
(the lazy `(.*?)'` then has nothing to stop at and the match attempt
fails). -/
def takeUntilQuote : Str → Option Str
  | [] => none
  | c :: cs =>
    if c = '\'' then some []
    else (takeUntilQuote cs).map (c :: ·)

/-- `re.search(r"const json = '(.*?)'", line)`: the captured group of the
leftmost match, scanning start positions left to right; at a position
where the literal matches but no closing quote follows, the regex engine
moves on to the next start position. -/
def lineMatch : Str → Option Str
  | [] => none
  | c :: cs =>
    if jsonPat.isPrefixOf (c :: cs) then
      match takeUntilQuote ((c :: cs).drop jsonPat.length) with
      | some captured => some captured
      | none => lineMatch cs
    else lineMatch cs

/-- The captured group of the first line that matches (the loop of lines
94-98, which `break`s at the first match). -/
def firstMatch : List Str → Option Str
  | [] => none
  | l :: ls =>
    match lineMatch l with
    | some captured => some captured
    | none => firstMatch ls

/-- How `read_directory` can fail: `RuntimeError("Unable to parse ...")`
from line 101, a `json.loads` decode exception, or dict access on
`data["fileList"]` failing. -/
inductive ReadDirError where
  | unableToParse
  | jsonDecodeError
  | fileListKeyError
deriving DecidableEq, Repr

/-- What happens after a captured group is in hand: `json.loads`, the
`if not data` falsiness check, then `data["fileList"]`. -/
def parseCaptured (loads : Str → Option Json) (captured : Str) : Except ReadDirError Json :=
  match loads captured with
  | none => Except.error ReadDirError.jsonDecodeError
  | some data =>
    if falsy data then Except.error ReadDirError.unableToParse
    else
      match getField data (str "fileList") with
      | none => Except.error ReadDirError.fileListKeyError
      | some fileList => Except.ok fileList

/-- `read_directory` (lines 85-103) on the lines of the response body. -/
def read_directory (loads : Str → Option Json) (htmlLines : List Str) : Except ReadDirError Json :=
  match firstMatch htmlLines with
  | none => Except.error ReadDirError.unableToParse
  | some captured => parseCaptured loads captured

/-! ## A completed run over a remote tree

`supernote_to_local` (lines 130-153) seeds the queue with the root
listing and lets the workers drain it.  In a run that completes
(`q.join()` returns), every enqueued item was processed exactly once:
each directory entry triggered one `read_directory` call whose children
were all enqueued, and each file entry triggered one download.  The
multiset of effects of such a run is therefore the one computed here by
structural recursion over the remote tree; scheduling only permutes it. -/

/-- A node of the remote tree: a file, or a directory with its children.
`uri` is the listing-relative path, `name` the display name. -/
inductive RNode where
  | file (uri name : Str)
  | dir (uri name : Str) (children : List RNode)

/-- The `Entry` a listing reports for a node. -/
def RNode.entry : RNode → Entry
  | RNode.file u n => ⟨u, n, false⟩
  | RNode.dir u n _ => ⟨u, n, true⟩

/-- The environment a remote tree presents, used for the per-node effects
of a completed run: every listing succeeds, conversion succeeds, `wget`
exits 0. -/
def treeEnv (listing : Str → Except SyncError (List Entry)) : Env :=
  ⟨listing, fun _ => Except.ok (), fun _ => 0⟩

mutual
/-- Effects of processing one node of the tree in a completed run: the
node's own `workerIter` effects followed by those of its descendants. -/
def nodeEffects (cfg : Config) : RNode → List Effect
  | RNode.file u n =>
    (workerIter (treeEnv fun _ => Except.ok []) cfg ⟨u, n, false⟩).effects
  | RNode.dir u n children =>
    (workerIter (treeEnv fun _ => Except.ok (children.map RNode.entry)) cfg ⟨u, n, true⟩).effects
      ++ forestEffects cfg children

/-- Effects of processing a list of sibling nodes. -/
def forestEffects (cfg : Config) : List RNode → List Effect
  | [] => []
  | t :: ts => nodeEffects cfg t ++ forestEffects cfg ts
end

/-- Effects of a completed `supernote_to_local` run on a remote tree
whose root listing returns `seed`: the root `read_directory` call of
line 142, then the processing of every seeded subtree. -/
def runEffects (cfg : Config) (seed : List RNode) : List Effect :=
  Effect.listing cfg.rootUrl :: forestEffects cfg seed

mutual
/-- Number of file (leaf) entries in a subtree. -/
def countFiles : RNode → Nat
  | RNode.file _ _ => 1
  | RNode.dir _ _ children => countFilesF children

/-- Number of file (leaf) entries in a forest. -/
def countFilesF : List RNode → Nat
  | [] => 0
  | t :: ts => countFiles t + countFilesF ts
end

mutual
/-- Number of directory entries in a subtree. -/
def countDirs : RNode → Nat
  | RNode.file _ _ => 0
  | RNode.dir _ _ children => 1 + countDirsF children

/-- Number of directory entries in a forest. -/
def countDirsF : List RNode → Nat
  | [] => 0
  | t :: ts => countDirs t + countDirsF ts
end

mutual
/-- Depth of a subtree (a lone file has depth 1). -/
def nodeDepth : RNode → Nat
  | RNode.file _ _ => 1
  | RNode.dir _ _ children => 1 + forestDepth children

/-- Depth of a forest. -/
def forestDepth : List RNode → Nat
  | [] => 0
  | t :: ts => max (nodeDepth t) (forestDepth ts)
end

mutual
/-- The uris of all entries in a subtree (the node itself included). -/
def allUris : RNode → List Str
  | RNode.file u _ => [u]
  | RNode.dir u _ children => u :: allUrisF children

/-- The uris of all entries in a forest. -/
def allUrisF : List RNode → List Str
  | [] => []
  | t :: ts => allUris t ++ allUrisF ts
end

/-- Is an effect a `download_file` invocation? -/
def isDownloadE : Effect → Bool
  | Effect.download _ _ => true
  | _ => false

/-- Is an effect a `read_directory` invocation? -/
def isListingE : Effect → Bool
  | Effect.listing _ => true
  | _ => false

/-! ## Discovery (lines 30-58)

`discover_supernote` gathers one `is_supernote_url` probe per host (order
preserved by `asyncio.gather`), then takes
`max(enumerate(results), key=lambda it: it[1])` — Python's `max` keeps
the first element attaining the maximal key, so `idx` is the index of the
first `True`, or `0` when all probes failed. -/

/-- Whether a probe of `host` succeeds is abstracted as a boolean
predicate; `is_supernote_url` returns `True` exactly when
`read_directory` against the host did not raise. -/
def probeResults (probe : Str → Bool) (hosts : List Str) : List Bool :=
  hosts.map probe

/-- Python `max(enumerate(results), key=lambda it: it[1])`: the first
index attaining the maximal boolean, paired with that boolean; `none` on
an empty list (`ValueError`). -/
def maxEnumerate : List Bool → Option (Nat × Bool)
  | [] => none
  | b :: bs =>
    match maxEnumerate bs with
    | none => some (0, b)
    | some (i, best) => if best > b then some (i + 1, best) else some (0, b)

/-- `f"http://{host}:{port}"` with the fixed port 8089. -/
def hostUrl (host : Str) : Str :=
  str "http://" ++ host ++ str ":8089"

/-- How `discover_supernote` can fail: `RuntimeError("Supernote was not
found on the network")`, or `ValueError` from `max` on an empty list. -/
inductive DiscoverError where
  | notFound
  | emptyHosts
deriving DecidableEq, Repr

/-- `discover_supernote` (lines 38-58). -/
def discover_supernote (probe : Str → Bool) (hosts : List Str) : Except DiscoverError Str :=
  match maxEnumerate (probeResults probe hosts) with
  | none => Except.error DiscoverError.emptyHosts
  | some (idx, result) =>
    if result = false then Except.error DiscoverError.notFound
    else Except.ok (hostUrl (hosts.getD idx []))

/-! ## The scheduler model of a run (lines 106-127, 130-153)

An asyncio run of `supernote_to_local`: an `asyncio.Queue` (with its
internal `_unfinished_tasks` counter, incremented by `put`, decremented
by `task_done`, awaited by `join`), an `asyncio.Semaphore(5)`, and five
`worker` tasks.  Cooperative scheduling is modelled as a small-step
relation; each step is one worker (or the main coroutine) running between
suspension points.  A worker that hits an unhandled exception dies
without calling `task_done`; the `async with semaphore` block releases
its permit on the way out either way. -/

/-- What one worker task is doing, between scheduler steps. -/
inductive WState where
  | idle
  | expanding (pending : List RNode)
  | awaitingPermit (node : RNode)
  | downloading (node : RNode)
  | dead
  | cancelled

/-- Does this worker currently hold a dequeued item it has not yet marked
done (a dead worker holds its item forever: `task_done` was skipped)? -/
def holdsItem : WState → Bool
  | WState.idle => false
  | WState.cancelled => false
  | _ => true

/-- Does this worker hold a semaphore permit? -/
def holdsPermit : WState → Bool
  | WState.downloading _ => true
  | _ => false

/-- Is this worker processing a directory entry? -/
def isExpanding : WState → Bool
  | WState.expanding _ => true
  | _ => false

/-- The shared state of a run: the queue contents, the queue's
`_unfinished_tasks` counter, the five worker tasks, the semaphore's free
permits, the running totals of `put` and `task_done` calls, and whether
`q.join()` has returned (after which line 153 has cancelled the
workers). -/
structure SState where
  queue : List RNode
  unfinished : Nat
  workers : List WState
  sem : Nat
  enqTotal : Nat
  doneTotal : Nat
  joined : Bool

/-- The gate capacity and pool size `n = 5` of line 138. -/
def poolSize : Nat := 5

/-- The state right after the seeding loop of lines 142-143: the root
listing's entries are queued (each `put` counted), the workers of lines
145-148 are idle, all five permits are free. -/
def initState (seed : List RNode) : SState :=
  ⟨seed, seed.length, List.replicate poolSize WState.idle, poolSize, seed.length, 0, false⟩

/-- One scheduler step.  Worker-local transitions are stated by splitting
the pool as `w₁ ++ [current] ++ w₂`. -/
inductive Step : SState → SState → Prop
  /-- An idle worker dequeues a file entry and reaches the
  `async with semaphore` of line 117, where it may have to wait. -/
  | getFile (w₁ w₂ : List WState) (u n : Str) (rest : List RNode)
      (uf sem eT dT : Nat) :
      Step ⟨RNode.file u n :: rest, uf, w₁ ++ WState.idle :: w₂, sem, eT, dT, false⟩
           ⟨rest, uf, w₁ ++ WState.awaitingPermit (RNode.file u n) :: w₂, sem, eT, dT, false⟩
  /-- An idle worker dequeues a file entry but dies before `task_done`
  (e.g. `os.makedirs` of line 111 raised). -/
  | getFileFail (w₁ w₂ : List WState) (u n : Str) (rest : List RNode)
      (uf sem eT dT : Nat) :
      Step ⟨RNode.file u n :: rest, uf, w₁ ++ WState.idle :: w₂, sem, eT, dT, false⟩
           ⟨rest, uf, w₁ ++ WState.dead :: w₂, sem, eT, dT, false⟩
  /-- An idle worker dequeues a directory entry and its
  `read_directory` call of line 114 returns the children. -/
  | getDir (w₁ w₂ : List WState) (u n : Str) (children rest : List RNode)
      (uf sem eT dT : Nat) :
      Step ⟨RNode.dir u n children :: rest, uf, w₁ ++ WState.idle :: w₂, sem, eT, dT, false⟩
           ⟨rest, uf, w₁ ++ WState.expanding children :: w₂, sem, eT, dT, false⟩
  /-- An idle worker dequeues a directory entry but `read_directory`
  raises: the worker dies, no child is enqueued, `task_done` is
  skipped. -/
  | getDirFail (w₁ w₂ : List WState) (u n : Str) (children rest : List RNode)
      (uf sem eT dT : Nat) :
      Step ⟨RNode.dir u n children :: rest, uf, w₁ ++ WState.idle :: w₂, sem, eT, dT, false⟩
           ⟨rest, uf, w₁ ++ WState.dead :: w₂, sem, eT, dT, false⟩
  /-- The `await q.put(it)` of line 115: one child moves to the queue,
  `_unfinished_tasks` goes up by one. -/
  | putChild (w₁ w₂ : List WState) (c : RNode) (cs q : List RNode)
      (uf sem eT dT : Nat) :
      Step ⟨q, uf, w₁ ++ WState.expanding (c :: cs) :: w₂, sem, eT, dT, false⟩
           ⟨q ++ [c], uf + 1, w₁ ++ WState.expanding cs :: w₂, sem, eT + 1, dT, false⟩
  /-- All children enqueued: the directory item's `q.task_done()` of
  line 127 runs and the worker loops back to `q.get()`. -/
  | dirDone (w₁ w₂ : List WState) (q : List RNode) (uf sem eT dT : Nat) :
      Step ⟨q, uf + 1, w₁ ++ WState.expanding [] :: w₂, sem, eT, dT, false⟩
           ⟨q, uf, w₁ ++ WState.idle :: w₂, sem, eT, dT + 1, false⟩
  /-- `async with semaphore` (line 117) grants a free permit and the
  download of line 119 starts. -/
  | acquirePermit (w₁ w₂ : List WState) (t : RNode) (q : List RNode)
      (uf sem eT dT : Nat) :
      Step ⟨q, uf, w₁ ++ WState.awaitingPermit t :: w₂, sem + 1, eT, dT, false⟩
           ⟨q, uf, w₁ ++ WState.downloading t :: w₂, sem, eT, dT, false⟩
  /-- Download (and any conversion) finished: the permit is released and
  the file item's `q.task_done()` of line 127 runs. -/
  | fileDone (w₁ w₂ : List WState) (t : RNode) (q : List RNode)
      (uf sem eT dT : Nat) :
      Step ⟨q, uf + 1, w₁ ++ WState.downloading t :: w₂, sem, eT, dT, false⟩
           ⟨q, uf, w₁ ++ WState.idle :: w₂, sem + 1, eT, dT + 1, false⟩
  /-- `convert_to_pdf` raised inside `async with semaphore`: the context
  manager releases the permit on exit, but the exception skips
  `q.task_done()` and kills the worker. -/
  | fileFail (w₁ w₂ : List WState) (t : RNode) (q : List RNode)
      (uf sem eT dT : Nat) :
      Step ⟨q, uf, w₁ ++ WState.downloading t :: w₂, sem, eT, dT, false⟩
           ⟨q, uf, w₁ ++ WState.dead :: w₂, sem + 1, eT, dT, false⟩
  /-- `await q.join()` (line 150) resumes exactly when
  `_unfinished_tasks == 0`; lines 152-153 then cancel every worker
  task and the run reports complete. -/
  | joinReturns (q : List RNode) (ws : List WState) (sem eT dT : Nat) :
      Step ⟨q, 0, ws, sem, eT, dT, false⟩
           ⟨q, 0, ws.map (fun _ => WState.cancelled), sem, eT, dT, true⟩

/-- States reachable in a run seeded with the root listing `seed`. -/
inductive Reaches (seed : List RNode) : SState → Prop
  | init : Reaches seed (initState seed)
  | step {s s' : SState} : Reaches seed s → Step s s' → Reaches seed s'

/-- Workers currently holding an undone item. -/
def holderCount (ws : List WState) : Nat :=
  ws.countP (fun w => holdsItem w)

/-- Workers currently holding a permit (in-flight downloads). -/
def permitCount (ws : List WState) : Nat :=
  ws.countP (fun w => holdsPermit w)

/-- The run invariant: `_unfinished_tasks` counts exactly the queued
items plus the items held by workers; it equals puts minus task_dones;
permits are conserved; and once joined, the counter is zero and every
worker is cancelled. -/
def Inv (s : SState) : Prop :=
  s.unfinished = s.queue.length + holderCount s.workers
    ∧ s.sem + permitCount s.workers = poolSize
    ∧ s.enqTotal = s.doneTotal + s.unfinished
    ∧ (s.joined = true → s.unfinished = 0 ∧ ∀ w ∈ s.workers, w = WState.cancelled)

/-! ## The run invariant -/

theorem holderCount_append_cons (w₁ w₂ : List WState) (x : WState) :
    holderCount (w₁ ++ x :: w₂) =
      holderCount w₁ + holderCount w₂ + (if holdsItem x then 1 else 0) := by
  simp only [holderCount, List.countP_append, List.countP_cons]
  omega

theorem permitCount_append_cons (w₁ w₂ : List WState) (x : WState) :
    permitCount (w₁ ++ x :: w₂) =
      permitCount w₁ + permitCount w₂ + (if holdsPermit x then 1 else 0) := by
  simp only [permitCount, List.countP_append, List.countP_cons]
  omega

theorem holderCount_map_cancelled (ws : List WState) :
    holderCount (ws.map fun _ => WState.cancelled) = 0 := by
  rw [holderCount, List.countP_eq_zero]
  intro w hw
  rcases List.mem_map.1 hw with ⟨_, _, rfl⟩
  simp [holdsItem]

theorem permitCount_le_holderCount (ws : List WState) :
    permitCount ws ≤ holderCount ws := by
  apply List.countP_mono_left
  intro w _ h
  cases w <;> simp_all [holdsPermit, holdsItem]

theorem permitCount_map_cancelled (ws : List WState) :
    permitCount (ws.map fun _ => WState.cancelled) = 0 := by
  rw [permitCount, List.countP_eq_zero]
  intro w hw
  rcases List.mem_map.1 hw with ⟨_, _, rfl⟩
  simp [holdsPermit]

theorem holderCount_replicate_idle (n : Nat) :
    holderCount (List.replicate n WState.idle) = 0 := by
  rw [holderCount, List.countP_eq_zero]
  intro w hw
  rw [List.eq_of_mem_replicate hw]
  simp [holdsItem]

theorem permitCount_replicate_idle (n : Nat) :
    permitCount (List.replicate n WState.idle) = 0 := by
  rw [permitCount, List.countP_eq_zero]
  intro w hw
  rw [List.eq_of_mem_replicate hw]
  simp [holdsPermit]

theorem inv_init (seed : List RNode) : Inv (initState seed) :=
  ⟨by simp [initState, holderCount_replicate_idle],
   by simp [initState, permitCount_replicate_idle],
   by simp [initState],
   by simp [initState]⟩

theorem inv_step {s s' : SState} (hs : Inv s) (h : Step s s') : Inv s' := by
  obtain ⟨h1, h2, h3, h4⟩ := hs
  cases h
  case joinReturns q ws sem eT dT =>
    simp only [Inv] at h1 h2 h3 ⊢
    have hh : holderCount ws = 0 := by omega
    have hperm : permitCount ws = 0 := by
      have := permitCount_le_holderCount ws
      omega
    refine ⟨?_, ?_, ?_, ?_⟩
    · rw [holderCount_map_cancelled]; omega
    · rw [permitCount_map_cancelled]; omega
    · omega
    · intro _
      refine ⟨by trivial, ?_⟩
      intro w hw
      rcases List.mem_map.1 hw with ⟨_, _, rfl⟩
      rfl
  all_goals (
    refine ⟨?_, ?_, ?_, by intro hj; cases hj⟩ <;>
    · simp only [Inv, holderCount_append_cons, permitCount_append_cons, List.length_append,
        List.length_cons, holdsItem, holdsPermit] at h1 h2 h3 ⊢
      simp only [if_true, if_false, Bool.false_eq_true, Bool.true_eq_false, ite_true, ite_false,
        List.length_append, List.length_cons, List.length_nil] at h1 h2 h3 ⊢
      omega)

theorem inv_reaches {seed : List RNode} {s : SState} (h : Reaches seed s) : Inv s := by
  induction h with
  | init => exact inv_init seed
  | step _ hstep ih => exact inv_step ih hstep

/-! ## Claim C1: completion semantics of a run -/

/-- C1: a sync run is reported complete (`q.join()` of line 150 returns
and lines 152-153 cancel the workers) exactly when the queue's
outstanding count reaches zero: at that point every `put` has been
matched by a `task_done` (items enqueued mid-run by directory expansion
included), the queue is empty, no worker holds an item, and the worker
tasks are torn down; moreover whenever the outstanding count is zero, no
worker holds an item. -/
theorem c1_completion {seed : List RNode} {s : SState} (h : Reaches seed s) :
    (s.joined = true →
      s.unfinished = 0 ∧ s.enqTotal = s.doneTotal ∧ s.queue = [] ∧
        (∀ w ∈ s.workers, holdsItem w = false) ∧ ∀ w ∈ s.workers, w = WState.cancelled)
    ∧ (s.unfinished = 0 →
        s.queue = [] ∧ ∀ w ∈ s.workers, holdsItem w = false) := by
  obtain ⟨h1, h2, h3, h4⟩ := inv_reaches h
  have hzero : s.unfinished = 0 → s.queue = [] ∧ ∀ w ∈ s.workers, holdsItem w = false := by
    intro h0
    have hq : s.queue.length = 0 := by omega
    have hc : holderCount s.workers = 0 := by omega
    refine ⟨List.length_eq_zero.1 hq, ?_⟩
    intro w hw
    have := (List.countP_eq_zero.1 hc) w hw
    simpa using this
  refine ⟨?_, hzero⟩
  intro hj
  obtain ⟨h0, hcanc⟩ := h4 hj
  obtain ⟨hq, hnone⟩ := hzero h0
  exact ⟨h0, by omega, hq, hnone, hcanc⟩

/-- Witness for C1: the run on an empty root listing, after `q.join()`
returns and the workers are cancelled. -/
theorem c1_completion_witness :
    ((true = true →
      (0 : Nat) = 0 ∧ (0 : Nat) = 0 ∧ ([] : List RNode) = [] ∧
        (∀ w ∈ (List.replicate poolSize WState.idle).map fun _ => WState.cancelled,
          holdsItem w = false) ∧
        ∀ w ∈ (List.replicate poolSize WState.idle).map fun _ => WState.cancelled,
          w = WState.cancelled)
    ∧ ((0 : Nat) = 0 →
        ([] : List RNode) = [] ∧
          ∀ w ∈ (List.replicate poolSize WState.idle).map fun _ => WState.cancelled,
            holdsItem w = false)) :=
  c1_completion (s := ⟨[], 0, (List.replicate poolSize WState.idle).map fun _ => WState.cancelled,
      poolSize, 0, 0, true⟩)
    (Reaches.step Reaches.init
      (Step.joinReturns [] (List.replicate poolSize WState.idle) poolSize 0 0))

/-! ## Claim C3: the download gate -/

/-- C3: at every reachable instant of a run, at most `n = 5` download
invocations are in flight (a worker inside the `async with semaphore`
block of lines 117-125 holds a permit), and a worker processing a
directory entry never holds a gate permit. -/
theorem c3_gate_bound {seed : List RNode} {s : SState} (h : Reaches seed s) :
    permitCount s.workers ≤ poolSize
      ∧ ∀ w ∈ s.workers, isExpanding w = true → holdsPermit w = false := by
  obtain ⟨_, h2, _, _⟩ := inv_reaches h
  refine ⟨by omega, ?_⟩
  intro w _ hw
  cases w <;> simp_all [isExpanding, holdsPermit]

/-- Witness for C3: the initial state of a run seeded with one file. -/
theorem c3_gate_bound_witness :
    permitCount (initState [RNode.file (str "/a.txt") (str "a.txt")]).workers ≤ poolSize
      ∧ ∀ w ∈ (initState [RNode.file (str "/a.txt") (str "a.txt")]).workers,
          isExpanding w = true → holdsPermit w = false :=
  c3_gate_bound (Reaches.init)

/-! ## Claim C4: is every dequeued item marked done? -/

/-- Counterexample to C4: a directory item whose `read_directory` call
raises.  The exception propagates out of the loop body before the
`q.task_done()` of line 127, so the item is never marked done. -/
theorem c4_counterexample :
    (workerIter
        ⟨fun _ => Except.error SyncError.listingError, fun _ => Except.ok (), fun _ => 0⟩
        ⟨str "http://192.168.0.9:8089", str "/out", true, str "/cwd"⟩
        ⟨str "/Note", str "Note", true⟩).taskDone = false
    ∧ (workerIter
        ⟨fun _ => Except.error SyncError.listingError, fun _ => Except.ok (), fun _ => 0⟩
        ⟨str "http://192.168.0.9:8089", str "/out", true, str "/cwd"⟩
        ⟨str "/Note", str "Note", true⟩).failure = some SyncError.listingError := by
  constructor <;> rfl

/-- C4 as amended: a dequeued item is marked done (`q.task_done()`,
line 127) exactly when its processing completes without raising; an item
whose listing or conversion raises an error is never marked done — the
exception skips `task_done` and kills the worker. -/
theorem c4_taskdone_iff_no_failure (env : Env) (cfg : Config) (item : Entry) :
    (workerIter env cfg item).taskDone = true ↔ (workerIter env cfg item).failure = none := by
  unfold workerIter download_file
  by_cases hd : item.isDirectory = true
  · simp only [hd, if_true]
    cases env.listing (cfg.rootUrl ++ item.uri) <;> simp
  · simp only [Bool.not_eq_true] at hd
    simp only [hd]
    by_cases hc : cfg.shouldConvert ∧ endsWith (filePathOf cfg item) (str ".note")
    · simp only [hc, if_true, if_false, Bool.false_eq_true]
      cases env.convertResult (filePathOf cfg item) <;> simp
    · simp [hc]

/-! ## Claim C7: when conversion runs -/

/-- C7: for a file entry, `convert_to_pdf` is invoked — producing the
derived file whose path is the original with its extension replaced by
`.pdf` — if and only if the conversion flag is enabled and the local file
path ends in `.note` (line 122); with the flag disabled the `.note` file
is still downloaded but no conversion happens. -/
theorem c7_conversion_iff (env : Env) (cfg : Config) (item : Entry)
    (hd : item.isDirectory = false) :
    ((∃ src dst, Effect.convert src dst ∈ (workerIter env cfg item).effects) ↔
        cfg.shouldConvert = true ∧ endsWith (filePathOf cfg item) (str ".note") = true)
    ∧ (∀ src dst, Effect.convert src dst ∈ (workerIter env cfg item).effects →
        src = filePathOf cfg item ∧ dst = splitextRoot (filePathOf cfg item) ++ str ".pdf")
    ∧ Effect.download (cfg.rootUrl ++ item.uri) (filePathOf cfg item)
        ∈ (workerIter env cfg item).effects := by
  unfold workerIter download_file
  simp only [hd, Bool.false_eq_true, if_false]
  by_cases hc : cfg.shouldConvert ∧ endsWith (filePathOf cfg item) (str ".note")
  · simp only [hc, if_true]
    cases env.convertResult (filePathOf cfg item) <;>
      simp_all [List.mem_append]
  · simp only [hc, if_false]
    simp_all [List.mem_append]

/-- Witness for C7: a `.note` file with conversion enabled; the
conversion effect is present and targets the `.pdf` sibling. -/
theorem c7_conversion_iff_witness :
    ((⟨str "/N/a.note", str "a.note", false⟩ : Entry).isDirectory = false)
    ∧ (((∃ src dst, Effect.convert src dst ∈
          (workerIter ⟨fun _ => Except.ok [], fun _ => Except.ok (), fun _ => 0⟩
            ⟨str "http://h:8089", str "/out", true, str "/cwd"⟩
            ⟨str "/N/a.note", str "a.note", false⟩).effects) ↔
        (⟨str "http://h:8089", str "/out", true, str "/cwd"⟩ : Config).shouldConvert = true
          ∧ endsWith (filePathOf ⟨str "http://h:8089", str "/out", true, str "/cwd"⟩
              ⟨str "/N/a.note", str "a.note", false⟩) (str ".note") = true)
    ∧ (∀ src dst, Effect.convert src dst ∈
          (workerIter ⟨fun _ => Except.ok [], fun _ => Except.ok (), fun _ => 0⟩
            ⟨str "http://h:8089", str "/out", true, str "/cwd"⟩
            ⟨str "/N/a.note", str "a.note", false⟩).effects →
        src = filePathOf ⟨str "http://h:8089", str "/out", true, str "/cwd"⟩
            ⟨str "/N/a.note", str "a.note", false⟩
          ∧ dst = splitextRoot (filePathOf ⟨str "http://h:8089", str "/out", true, str "/cwd"⟩
              ⟨str "/N/a.note", str "a.note", false⟩) ++ str ".pdf")
    ∧ Effect.download ((⟨str "http://h:8089", str "/out", true, str "/cwd"⟩ : Config).rootUrl
          ++ (⟨str "/N/a.note", str "a.note", false⟩ : Entry).uri)
        (filePathOf ⟨str "http://h:8089", str "/out", true, str "/cwd"⟩
          ⟨str "/N/a.note", str "a.note", false⟩)
        ∈ (workerIter ⟨fun _ => Except.ok [], fun _ => Except.ok (), fun _ => 0⟩
            ⟨str "http://h:8089", str "/out", true, str "/cwd"⟩
            ⟨str "/N/a.note", str "a.note", false⟩).effects) :=
  ⟨rfl, c7_conversion_iff _ _ _ rfl⟩

/-! ## Claim C9: `wget` failures are invisible -/

/-- C9: `download_file` returns normally whatever exit status the `wget`
subprocess reports (its `returncode` is never inspected, lines 78-82): a
failed fetch raises no error, the worker's result does not depend on the
exit status at all, and the worker logs the download as successful and
may still attempt conversion. -/
theorem c9_wget_exit_ignored (listing : Str → Except SyncError (List Entry))
    (conv : Str → Except SyncError Unit) (exitA exitB : Str → Int)
    (cfg : Config) (item : Entry) (hd : item.isDirectory = false) :
    (∀ url outputPath, download_file exitA url outputPath = Except.ok ())
    ∧ workerIter ⟨listing, conv, exitA⟩ cfg item = workerIter ⟨listing, conv, exitB⟩ cfg item
    ∧ Effect.logDownloaded item.name (filePathOf cfg item)
        ∈ (workerIter ⟨listing, conv, exitA⟩ cfg item).effects := by
  refine ⟨fun _ _ => rfl, rfl, ?_⟩
  unfold workerIter download_file
  simp only [hd, Bool.false_eq_true, if_false]
  by_cases hc : cfg.shouldConvert ∧ endsWith (filePathOf cfg item) (str ".note")
  · simp only [hc, if_true]
    cases conv (filePathOf cfg item) <;> simp [List.mem_append]
  · simp [hc]

/-- Witness for C9: a file entry processed while `wget` exits 1 versus 0;
the iteration result is identical and the success log is emitted. -/
theorem c9_wget_exit_ignored_witness :
    ((⟨str "/a.txt", str "a.txt", false⟩ : Entry).isDirectory = false)
    ∧ ((∀ url outputPath, download_file (fun _ => (1 : Int)) url outputPath = Except.ok ())
    ∧ workerIter ⟨fun _ => Except.ok [], fun _ => Except.ok (), fun _ => (1 : Int)⟩
        ⟨str "http://h:8089", str "/out", false, str "/cwd"⟩ ⟨str "/a.txt", str "a.txt", false⟩
      = workerIter ⟨fun _ => Except.ok [], fun _ => Except.ok (), fun _ => (0 : Int)⟩
        ⟨str "http://h:8089", str "/out", false, str "/cwd"⟩ ⟨str "/a.txt", str "a.txt", false⟩
    ∧ Effect.logDownloaded (str "a.txt")
        (filePathOf ⟨str "http://h:8089", str "/out", false, str "/cwd"⟩
          ⟨str "/a.txt", str "a.txt", false⟩)
        ∈ (workerIter ⟨fun _ => Except.ok [], fun _ => Except.ok (), fun _ => (1 : Int)⟩
            ⟨str "http://h:8089", str "/out", false, str "/cwd"⟩
            ⟨str "/a.txt", str "a.txt", false⟩).effects) :=
  ⟨rfl, c9_wget_exit_ignored _ _ _ _ _ _ rfl⟩

/-! ## Claim C8: discovery picks the first responding host -/

theorem maxEnumerate_eq_none {bs : List Bool} (h : maxEnumerate bs = none) : bs = [] := by
  cases bs with
  | nil => rfl
  | cons b rest =>
    exfalso
    simp only [maxEnumerate] at h
    cases hm : maxEnumerate rest with
    | none => rw [hm] at h; cases h
    | some ib =>
      rw [hm] at h
      obtain ⟨i, best⟩ := ib
      by_cases hb : best > b <;> simp [hb] at h

theorem maxEnumerate_spec (probe : Str → Bool) :
    ∀ (hosts : List Str) (i : Nat) (b : Bool),
      maxEnumerate (hosts.map probe) = some (i, b) →
      (b = true → hosts.find? probe = some (hosts.getD i [])) ∧
      (b = false → hosts.find? probe = none) := by
  intro hosts
  induction hosts with
  | nil => intro i b h; cases h
  | cons h hs ih =>
    intro i b hm
    simp only [List.map_cons, maxEnumerate] at hm
    cases hrest : maxEnumerate (hs.map probe) with
    | none =>
      rw [hrest] at hm
      have hnil : hs.map probe = [] := maxEnumerate_eq_none hrest
      have hhs : hs = [] := List.map_eq_nil_iff.mp hnil
      subst hhs
      cases hm
      constructor
      · intro hb
        simp [List.find?, hb]
      · intro hb
        simp [List.find?, hb]
    | some ib =>
      rw [hrest] at hm
      obtain ⟨j, best⟩ := ib
      by_cases hgt : best > probe h
      · have hbest : best = true := by
          cases best
          · exact absurd hgt (by simp [Bool.lt_iff])
          · rfl
        have hph : probe h = false := by
          cases hph : probe h <;> simp_all
        subst hbest
        simp only [hgt, if_true] at hm
        cases hm
        obtain ⟨ihT, _⟩ := ih j true hrest
        constructor
        · intro _
          simp [List.find?, hph, ihT rfl, List.getD]
        · intro hb; cases hb
      · simp only [hgt, if_false] at hm
        cases hm
        constructor
        · intro hb
          simp [List.find?, hb]
        · intro hb
          have hbf : best = false := by
            cases best <;> simp_all
          obtain ⟨_, ihF⟩ := ih j false (hbf ▸ hrest)
          simp [List.find?, hb, ihF rfl]

/-- C8: with at least one candidate host, `discover_supernote` returns
the URL (fixed port 8089) of the first host in probe order whose
validation probe (`is_supernote_url`, i.e. a `read_directory` attempt)
succeeded — Python's `max(enumerate(results), key=...)` keeps the first
maximal element — and raises `RuntimeError` when no host responds. -/
theorem c8_first_responder (probe : Str → Bool) (hosts : List Str) (hne : hosts ≠ []) :
    discover_supernote probe hosts =
      match hosts.find? probe with
      | some h => Except.ok (hostUrl h)
      | none => Except.error DiscoverError.notFound := by
  unfold discover_supernote probeResults
  cases hm : maxEnumerate (hosts.map probe) with
  | none =>
    exact absurd (List.map_eq_nil_iff.mp (maxEnumerate_eq_none hm)) hne
  | some ib =>
    obtain ⟨i, b⟩ := ib
    obtain ⟨hT, hF⟩ := maxEnumerate_spec probe hosts i b hm
    cases b with
    | false => rw [hF rfl]; rfl
    | true => rw [hT rfl]; rfl

/-- Witness for C8: of the hosts `["192.168.0.4", "192.168.0.9"]` with
only the second responding, discovery returns
`http://192.168.0.9:8089`. -/
theorem c8_first_responder_witness :
    [str "192.168.0.4", str "192.168.0.9"] ≠ ([] : List Str)
    ∧ discover_supernote (fun h => h = str "192.168.0.9")
        [str "192.168.0.4", str "192.168.0.9"] =
      match [str "192.168.0.4", str "192.168.0.9"].find? (fun h => h = str "192.168.0.9") with
      | some h => Except.ok (hostUrl h)
      | none => Except.error DiscoverError.notFound :=
  ⟨by decide,
   c8_first_responder (fun h => h = str "192.168.0.9")
     [str "192.168.0.4", str "192.168.0.9"] (by decide)⟩

/-! ## Claim C6: listing parse, first matching line wins -/

theorem firstMatch_of_none {lines : List Str}
    (h : ∀ l ∈ lines, lineMatch l = none) : firstMatch lines = none := by
  induction lines with
  | nil => rfl
  | cons l ls ih =>
    simp only [firstMatch, h l (by simp)]
    exact ih fun x hx => h x (by simp [hx])

theorem firstMatch_append {pre : List Str} {l : Str} {post : List Str} {captured : Str}
    (hpre : ∀ x ∈ pre, lineMatch x = none) (hl : lineMatch l = some captured) :
    firstMatch (pre ++ l :: post) = some captured := by
  induction pre with
  | nil => simp [firstMatch, hl]
  | cons p ps ih =>
    simp only [List.cons_append, firstMatch, hpre p (by simp)]
    exact ih fun x hx => hpre x (by simp [hx])

/-- C6: `read_directory` takes the embedded JSON from the first line
matching `const json = '(.*?)'` — its result is computed from that line's
captured group alone, whatever follows — and when no line of the response
matches, it raises the `RuntimeError` of line 101; a worker whose
`read_directory` call fails enqueues nothing from that response. -/
theorem c6_embedded_json (loads : Str → Option Json)
    (pre : List Str) (l : Str) (post : List Str) (captured : Str)
    (hpre : ∀ x ∈ pre, lineMatch x = none) (hl : lineMatch l = some captured) :
    read_directory loads (pre ++ l :: post) = parseCaptured loads captured
    ∧ (∀ lines : List Str, (∀ x ∈ lines, lineMatch x = none) →
        read_directory loads lines = Except.error ReadDirError.unableToParse)
    ∧ (∀ env cfg item e, item.isDirectory = true →
        env.listing (cfg.rootUrl ++ item.uri) = Except.error e →
        (workerIter env cfg item).enqueued = []) := by
  refine ⟨?_, ?_, ?_⟩
  · rw [read_directory, firstMatch_append hpre hl]
  · intro lines hnone
    rw [read_directory, firstMatch_of_none hnone]
  · intro env cfg item e hdir herr
    unfold workerIter
    simp [hdir, herr]

/-- Witness for C6: a response whose first line does not match and whose
second line embeds `{"fileList": []}`; and a matchless response. -/
theorem c6_embedded_json_witness :
    ((∀ x ∈ [str "<html>"], lineMatch x = none)
      ∧ lineMatch (str "const json = \x27\x7b\x7d\x27") = some (str "\x7b\x7d"))
    ∧ read_directory (fun _ => some (Json.obj [(str "fileList", Json.arr [])]))
        ([str "<html>"] ++ str "const json = \x27\x7b\x7d\x27" :: [str "</html>"])
      = parseCaptured (fun _ => some (Json.obj [(str "fileList", Json.arr [])])) (str "\x7b\x7d")
    ∧ (∀ lines : List Str, (∀ x ∈ lines, lineMatch x = none) →
        read_directory (fun _ => some (Json.obj [(str "fileList", Json.arr [])])) lines
          = Except.error ReadDirError.unableToParse)
    ∧ (∀ env cfg item e, item.isDirectory = true →
        env.listing (cfg.rootUrl ++ item.uri) = Except.error e →
        (workerIter env cfg item).enqueued = []) :=
  ⟨⟨by decide, by decide⟩,
   c6_embedded_json (fun _ => some (Json.obj [(str "fileList", Json.arr [])]))
     [str "<html>"] (str "const json = \x27\x7b\x7d\x27") [str "</html>"] (str "\x7b\x7d")
     (by decide) (by decide)⟩

/-! ## Claim C5: download and listing call counts -/

mutual
theorem countP_download_node (cfg : Config) :
    (t : RNode) → (nodeEffects cfg t).countP isDownloadE = countFiles t
  | RNode.file u n => by
    rw [nodeEffects, countFiles]
    unfold workerIter download_file
    by_cases hc : cfg.shouldConvert ∧ endsWith (filePathOf cfg ⟨u, n, false⟩) (str ".note") <;>
      simp [hc, treeEnv, List.countP_cons, List.countP_append, isDownloadE]
  | RNode.dir u n children => by
    rw [nodeEffects, countFiles, List.countP_append, countP_download_forest cfg children]
    unfold workerIter
    simp [List.countP_cons, isDownloadE, treeEnv]

theorem countP_download_forest (cfg : Config) :
    (ts : List RNode) → (forestEffects cfg ts).countP isDownloadE = countFilesF ts
  | [] => rfl
  | t :: ts => by
    rw [forestEffects, countFilesF, List.countP_append, countP_download_node cfg t,
      countP_download_forest cfg ts]
end

mutual
theorem countP_listing_node (cfg : Config) :
    (t : RNode) → (nodeEffects cfg t).countP isListingE = countDirs t
  | RNode.file u n => by
    rw [nodeEffects, countDirs]
    unfold workerIter download_file
    by_cases hc : cfg.shouldConvert ∧ endsWith (filePathOf cfg ⟨u, n, false⟩) (str ".note") <;>
      simp [hc, treeEnv, List.countP_cons, List.countP_append, isListingE]
  | RNode.dir u n children => by
    rw [nodeEffects, countDirs, List.countP_append, countP_listing_forest cfg children]
    unfold workerIter
    simp [List.countP_cons, isListingE, treeEnv]

theorem countP_listing_forest (cfg : Config) :
    (ts : List RNode) → (forestEffects cfg ts).countP isListingE = countDirsF ts
  | [] => rfl
  | t :: ts => by
    rw [forestEffects, countDirsF, List.countP_append, countP_listing_node cfg t,
      countP_listing_forest cfg ts]
end

/-- C5: a completed run over a remote tree of depth ≥ 2 with `N` file
(leaf) entries invokes `download_file` exactly `N` times — once per file
entry — and calls `read_directory` exactly once per directory entry plus
once for the root listing of line 142. -/
theorem c5_call_counts (cfg : Config) (seed : List RNode)
    (hdepth : 2 ≤ forestDepth seed) :
    (runEffects cfg seed).countP isDownloadE = countFilesF seed
    ∧ (runEffects cfg seed).countP isListingE = countDirsF seed + 1 := by
  have _ := hdepth
  constructor
  · rw [runEffects, List.countP_cons, countP_download_forest cfg seed]
    simp [isDownloadE]
  · rw [runEffects, List.countP_cons, countP_listing_forest cfg seed]
    simp [isListingE]

/-- Witness for C5: a depth-2 tree with one file inside one directory;
the run makes 1 download and 2 listing calls. -/
theorem c5_call_counts_witness :
    2 ≤ forestDepth [RNode.dir (str "/sub") (str "sub") [RNode.file (str "/sub/b.txt") (str "b.txt")]]
    ∧ ((runEffects ⟨str "http://h:8089", str "/out", false, str "/cwd"⟩
          [RNode.dir (str "/sub") (str "sub") [RNode.file (str "/sub/b.txt") (str "b.txt")]]).countP
            isDownloadE
        = countFilesF [RNode.dir (str "/sub") (str "sub")
            [RNode.file (str "/sub/b.txt") (str "b.txt")]]
      ∧ (runEffects ⟨str "http://h:8089", str "/out", false, str "/cwd"⟩
          [RNode.dir (str "/sub") (str "sub") [RNode.file (str "/sub/b.txt") (str "b.txt")]]).countP
            isListingE
        = countDirsF [RNode.dir (str "/sub") (str "sub")
            [RNode.file (str "/sub/b.txt") (str "b.txt")]] + 1) :=
  ⟨by decide,
   c5_call_counts ⟨str "http://h:8089", str "/out", false, str "/cwd"⟩
     [RNode.dir (str "/sub") (str "sub") [RNode.file (str "/sub/b.txt") (str "b.txt")]]
     (by decide)⟩

/-! ## Claim C10: which local directories get created -/

mutual
theorem makedirs_node (cfg : Config) :
    (t : RNode) → ∀ p, (Effect.makedirs p ∈ nodeEffects cfg t ↔
      ∃ u ∈ allUris t, p = parentDirOf cfg u)
  | RNode.file u n => by
    intro p
    rw [nodeEffects, allUris]
    unfold workerIter download_file
    by_cases hc : cfg.shouldConvert ∧ endsWith (filePathOf cfg ⟨u, n, false⟩) (str ".note") <;>
      simp [hc, treeEnv]
  | RNode.dir u n children => by
    intro p
    rw [nodeEffects, allUris]
    unfold workerIter
    simp [treeEnv, makedirs_forest cfg children p]

theorem makedirs_forest (cfg : Config) :
    (ts : List RNode) → ∀ p, (Effect.makedirs p ∈ forestEffects cfg ts ↔
      ∃ u ∈ allUrisF ts, p = parentDirOf cfg u)
  | [] => by intro p; simp [forestEffects, allUrisF]
  | t :: ts => by
    intro p
    rw [forestEffects, allUrisF]
    simp [List.mem_append, makedirs_node cfg t p, makedirs_forest cfg ts p,
      exists_or, or_and_right]
end

/-- Counterexample to C10's consequence: in the tree
`/sub/inner` (a directory inside `/sub`, no files anywhere), the run
creates the local directory `/out/sub` — the directory corresponding to
the remote entry `/sub` — even though `/sub` contains no descendant
file: processing the child *directory* entry `/sub/inner` runs
`os.makedirs` on its parent (line 111). -/
theorem c10_counterexample :
    Effect.makedirs (str "/out/sub")
      ∈ runEffects ⟨str "http://h:8089", str "/out", false, str "/cwd"⟩
          [RNode.dir (str "/sub") (str "sub")
            [RNode.dir (str "/sub/inner") (str "inner") []]]
    ∧ countFilesF [RNode.dir (str "/sub") (str "sub")
        [RNode.dir (str "/sub/inner") (str "inner") []]] = 0
    ∧ str "/out/sub"
        = (⟨str "http://h:8089", str "/out", false, str "/cwd"⟩ : Config).outputDir
            ++ (RNode.dir (str "/sub") (str "sub")
              [RNode.dir (str "/sub/inner") (str "inner") []]).entry.uri := by
  refine ⟨by decide, by decide, by decide⟩

/-- C10 as amended: for every entry processed, exactly the parent
directory of `outputDir + uri` is created (idempotently, ancestors
included), never unconditionally the directory named by the entry
itself: a path receives `os.makedirs` in a completed run if and only if
it is the computed parent of some entry's `outputDir + uri`.  (A remote
directory's own local directory therefore appears only when some
processed entry — file *or* directory — lies directly beneath it, not
only when a descendant file does.) -/
theorem c10_makedirs_iff (cfg : Config) (seed : List RNode) (p : Str) :
    Effect.makedirs p ∈ runEffects cfg seed ↔
      ∃ u ∈ allUrisF seed, p = parentDirOf cfg u := by
  rw [runEffects]
  simp only [List.mem_cons, makedirs_forest cfg seed p, false_or]
  constructor
  · rintro (h | h)
    · cases h
    · exact h
  · exact Or.inr

/-! ## Claim C2: the local download path equals `outputDir + uri` -/

theorem mem_of_getLast?_eq {α : Type} {l : List α} {a : α} (h : l.getLast? = some a) :
    a ∈ l := by
  rcases List.mem_getLast?_eq_getLast (show a ∈ l.getLast? by rw [h]; exact rfl) with ⟨hne, rfl⟩
  exact List.getLast_mem hne

theorem joinComps_cons_of_ne_nil {cs : List Str} (c : Str) (h : cs ≠ []) :
    joinComps (c :: cs) = c ++ '/' :: joinComps cs := by
  cases cs with
  | nil => exact absurd rfl h
  | cons d ds => rfl

theorem joinComps_append {cs₁ : List Str} (cs₂ : List Str) (h₁ : cs₁ ≠ []) (h₂ : cs₂ ≠ []) :
    joinComps (cs₁ ++ cs₂) = joinComps cs₁ ++ '/' :: joinComps cs₂ := by
  induction cs₁ with
  | nil => exact absurd rfl h₁
  | cons c rest ih =>
    cases hrest : rest with
    | nil =>
      rw [List.cons_append, List.nil_append, joinComps_cons_of_ne_nil c h₂]
      rfl
    | cons d ds =>
      subst hrest
      rw [List.cons_append,
        joinComps_cons_of_ne_nil c (by simp : (d :: ds) ++ cs₂ ≠ []),
        joinComps_cons_of_ne_nil c (List.cons_ne_nil d ds),
        ih (List.cons_ne_nil d ds)]
      simp [List.append_assoc]

theorem mkAbs_append {cs₁ cs₂ : List Str} (h₁ : cs₁ ≠ []) (h₂ : cs₂ ≠ []) :
    mkAbs cs₁ ++ mkAbs cs₂ = mkAbs (cs₁ ++ cs₂) := by
  rw [mkAbs, mkAbs, mkAbs, joinComps_append cs₂ h₁ h₂]
  rfl

theorem mkAbs_concat {cs : List Str} (c : Str) (h : cs ≠ []) :
    mkAbs cs ++ '/' :: c = mkAbs (cs ++ [c]) := by
  rw [mkAbs, mkAbs, joinComps_append [c] h (List.cons_ne_nil c [])]
  rfl

theorem splitSlash_noSlash {c : Str} (h : '/' ∉ c) : splitSlash c = [c] := by
  induction c with
  | nil => rfl
  | cons x xs ih =>
    have hx : x ≠ '/' := fun hx => h (hx ▸ List.mem_cons_self x xs)
    have hxs : '/' ∉ xs := fun hm => h (List.mem_cons_of_mem x hm)
    rw [splitSlash]
    simp only [hx, if_false, ih hxs]

theorem splitSlash_append {a : Str} (b : Str) (h : '/' ∉ a) :
    splitSlash (a ++ '/' :: b) = a :: splitSlash b := by
  induction a with
  | nil =>
    rw [List.nil_append, splitSlash]
    simp
  | cons x xs ih =>
    have hx : x ≠ '/' := fun hx => h (hx ▸ List.mem_cons_self x xs)
    have hxs : '/' ∉ xs := fun hm => h (List.mem_cons_of_mem x hm)
    rw [List.cons_append, splitSlash]
    simp only [hx, if_false, ih hxs]

theorem splitSlash_joinComps :
    ∀ (cs : List Str), cs ≠ [] → (∀ c ∈ cs, '/' ∉ c) →
      splitSlash (joinComps cs) = cs
  | [], h, _ => absurd rfl h
  | [c], _, hs => splitSlash_noSlash (hs c (by simp))
  | c :: d :: ds, _, hs => by
    rw [joinComps_cons_of_ne_nil c (List.cons_ne_nil d ds),
      splitSlash_append _ (hs c (by simp)),
      splitSlash_joinComps (d :: ds) (List.cons_ne_nil d ds)
        (fun x hx => hs x (by simp [hx]))]

theorem splitSlash_mkAbs {cs : List Str} (hne : cs ≠ [])
    (hs : ∀ c ∈ cs, '/' ∉ c) : splitSlash (mkAbs cs) = [] :: cs := by
  rw [mkAbs, splitSlash]
  simp only [if_pos rfl, if_true, ite_true, splitSlash_joinComps cs hne hs]

theorem getLast?_mkAbs_ne_slash :
    ∀ (cs : List Str), cs ≠ [] → (∀ c ∈ cs, goodComp c) →
      (mkAbs cs).getLast? ≠ some '/'
  | [], h, _ => absurd rfl h
  | [c], _, hg => by
    obtain ⟨hne, hslash, -, -⟩ := hg c (by simp)
    have : mkAbs [c] = ['/'] ++ c := rfl
    rw [this, List.getLast?_append_of_ne_nil _ hne]
    intro hlast
    exact hslash (mem_of_getLast?_eq hlast)
  | c :: d :: ds, _, hg => by
    have heq : mkAbs (c :: d :: ds) = ('/' :: c) ++ mkAbs (d :: ds) := by
      rw [mkAbs, joinComps_cons_of_ne_nil c (List.cons_ne_nil d ds), mkAbs]
      rfl
    rw [heq, List.getLast?_append_of_ne_nil _ (by rw [mkAbs]; exact List.cons_ne_nil _ _)]
    exact getLast?_mkAbs_ne_slash (d :: ds) (List.cons_ne_nil d ds)
      (fun x hx => hg x (by simp [hx]))

theorem isAbs_of_goodComp {c : Str} (h : goodComp c) : isAbs c = false := by
  obtain ⟨hne, hslash, -, -⟩ := h
  cases c with
  | nil => rfl
  | cons x xs =>
    have hx : x ≠ '/' := fun hx => hslash (hx ▸ List.mem_cons_self x xs)
    simp [isAbs, hx]

theorem pathJoin_plain {a b : Str} (hb : isAbs b = false) (ha : a ≠ [])
    (hl : a.getLast? ≠ some '/') : pathJoin a b = a ++ '/' :: b := by
  rw [pathJoin, if_neg (by simp [hb]), if_neg (by simp [ha, hl])]

theorem initialSlashes_mkAbs (c : Str) (rest : List Str) (hg : goodComp c) :
    initialSlashes (mkAbs (c :: rest)) = 1 := by
    obtain ⟨hne, hslash, -, -⟩ := hg
    obtain ⟨ch, c', rfl⟩ : ∃ ch c', c = ch :: c' := by
      cases c with
      | nil => exact absurd rfl hne
      | cons ch c' => exact ⟨ch, c', rfl⟩
    have hch : ch ≠ '/' := fun hx => hslash (hx ▸ List.mem_cons_self ch c')
    have hhead : ∃ t, joinComps ((ch :: c') :: rest) = ch :: (c' ++ t) := by
      cases rest with
      | nil => exact ⟨[], by simp [joinComps]⟩
      | cons d ds =>
        refine ⟨'/' :: joinComps (d :: ds), ?_⟩
        rw [joinComps_cons_of_ne_nil _ (List.cons_ne_nil d ds)]
        rfl
    obtain ⟨t, ht⟩ := hhead
    rw [mkAbs, ht, initialSlashes.eq_def]
    simp [hch]

theorem normComps_good :
    ∀ (cs : List Str) (rest acc : List Str), (∀ c ∈ cs, goodComp c) →
      normComps true acc (cs ++ rest) = normComps true (acc ++ cs) rest
  | [], rest, acc, _ => by rw [List.nil_append, List.append_nil]
  | c :: cs', rest, acc, hg => by
    obtain ⟨hne, -, hdot, hddot⟩ := hg c (by simp)
    rw [List.cons_append, normComps, if_neg (by simp [hne, hdot]),
      if_pos (Or.inl hddot),
      normComps_good cs' rest (acc ++ [c]) (fun x hx => hg x (by simp [hx]))]
    rw [List.append_assoc]
    rfl

theorem normComps_pop (acc : List Str) (h : acc.getLast? ≠ some (str "..")) :
    normComps true acc [str ".."] = acc.dropLast := by
  rw [normComps, if_neg (by decide), if_neg ?hcond]
  · rfl
  case hcond =>
    rintro (hc | hc | hc)
    · exact hc rfl
    · exact absurd hc.1 (by simp)
    · exact h hc

theorem normpath_mkAbs_pop {od us : List Str} (hod : od ≠ []) (hus : us ≠ [])
    (hgod : ∀ c ∈ od, goodComp c) (hgus : ∀ c ∈ us, goodComp c) :
    normpath (mkAbs ((od ++ us) ++ [str ".."])) = mkAbs (od ++ us.dropLast) := by
  have hou_ne : od ++ us ≠ [] := fun h => hod (List.append_eq_nil.1 h).1
  have hou_good : ∀ c ∈ od ++ us, goodComp c := by
    intro c hc
    rcases List.mem_append.1 hc with hc | hc
    · exact hgod c hc
    · exact hgus c hc
  have hM_ne : (od ++ us) ++ [str ".."] ≠ [] := by simp
  have hM_noslash : ∀ c ∈ (od ++ us) ++ [str ".."], '/' ∉ c := by
    intro c hc
    rcases List.mem_append.1 hc with hc | hc
    · exact (hou_good c hc).2.1
    · rw [List.mem_singleton.1 hc]; decide
  have hM_good_prefix : ∀ c ∈ od ++ us, goodComp c := hou_good
  have hsplit : splitSlash (mkAbs ((od ++ us) ++ [str ".."])) =
      [] :: ((od ++ us) ++ [str ".."]) := splitSlash_mkAbs hM_ne hM_noslash
  have hslashes : initialSlashes (mkAbs ((od ++ us) ++ [str ".."])) = 1 := by
    obtain ⟨o₀, od', rfl⟩ : ∃ o₀ od', od = o₀ :: od' := by
      cases od with
      | nil => exact absurd rfl hod
      | cons a b => exact ⟨a, b, rfl⟩
    rw [List.cons_append, List.cons_append]
    exact initialSlashes_mkAbs o₀ _ (hgod o₀ (by simp))
  have hlast : (od ++ us).getLast? ≠ some (str "..") := by
    rw [List.getLast?_append_of_ne_nil od hus]
    intro h
    exact (hgus _ (mem_of_getLast?_eq h)).2.2.2 rfl
  rw [normpath, if_neg (by rw [mkAbs]; exact List.cons_ne_nil _ _)]
  rw [hslashes, hsplit]
  have hflag : (decide (1 ≠ 0) : Bool) = true := by decide
  simp only [hflag]
  rw [normComps, if_pos (Or.inl rfl)]
  rw [normComps_good (od ++ us) [str ".."] [] hM_good_prefix, List.nil_append,
    normComps_pop _ hlast, List.dropLast_append_of_ne_nil od hus]
  rw [List.replicate, List.replicate]
  rfl

/-- The last component of a good component list is itself good, stays
inside `us`, and never starts an absolute path. -/
theorem goodComp_of_getLast? {us : List Str} {name : Str}
    (hgus : ∀ c ∈ us, goodComp c) (hname : us.getLast? = some name) :
    goodComp name :=
  hgus name (mem_of_getLast?_eq hname)

/-- C2: for a file entry whose `uri` is a well-formed absolute relative
path (leading separator, plain components) and whose `name` equals the
final component of `uri`, the path the file is downloaded to —
`os.path.join(parent_dir, item["name"])` with `parent_dir` computed on
line 110 — is exactly `output_dir + uri`, so `uri` alone determines the
local path. -/
theorem c2_local_path (rootUrl cwd : Str) (sc : Bool) (od us : List Str) (name : Str)
    (hod : od ≠ []) (hus : us ≠ [])
    (hgod : ∀ c ∈ od, goodComp c) (hgus : ∀ c ∈ us, goodComp c)
    (hname : us.getLast? = some name) :
    filePathOf ⟨rootUrl, mkAbs od, sc, cwd⟩ ⟨mkAbs us, name, false⟩
      = mkAbs od ++ mkAbs us := by
  have hou_ne : od ++ us ≠ [] := fun h => hod (List.append_eq_nil.1 h).1
  have hou_good : ∀ c ∈ od ++ us, goodComp c := by
    intro c hc
    rcases List.mem_append.1 hc with hc | hc
    · exact hgod c hc
    · exact hgus c hc
  have hcat : mkAbs od ++ mkAbs us = mkAbs (od ++ us) := mkAbs_append hod hus
  have hparent : parentDirOf ⟨rootUrl, mkAbs od, sc, cwd⟩ (mkAbs us)
      = mkAbs (od ++ us.dropLast) := by
    rw [parentDirOf]
    show abspath cwd (pathJoin (mkAbs od ++ mkAbs us) (str "..")) = _
    rw [hcat,
      pathJoin_plain (by decide) (by rw [mkAbs]; exact List.cons_ne_nil _ _)
        (getLast?_mkAbs_ne_slash _ hou_ne hou_good),
      mkAbs_concat (str "..") hou_ne,
      abspath, if_pos (by rw [mkAbs]; simp [isAbs])]
    exact normpath_mkAbs_pop hod hus hgod hgus
  have hgood_name : goodComp name := goodComp_of_getLast? hgus hname
  have hdrop_good : ∀ c ∈ od ++ us.dropLast, goodComp c := by
    intro c hc
    rcases List.mem_append.1 hc with hc | hc
    · exact hgod c hc
    · exact hgus c (List.dropLast_subset us hc)
  have hdrop_ne : od ++ us.dropLast ≠ [] := fun h => hod (List.append_eq_nil.1 h).1
  rw [filePathOf]
  show pathJoin (parentDirOf ⟨rootUrl, mkAbs od, sc, cwd⟩ (mkAbs us)) name = _
  rw [hparent,
    pathJoin_plain (isAbs_of_goodComp hgood_name)
      (by rw [mkAbs]; exact List.cons_ne_nil _ _)
      (getLast?_mkAbs_ne_slash _ hdrop_ne hdrop_good),
    mkAbs_concat name hdrop_ne, List.append_assoc,
    List.dropLast_append_getLast? name (by rw [hname]; exact rfl), hcat]

/-- Witness for C2: `output_dir = "/out"`, `uri = "/sub/b.txt"`,
`name = "b.txt"`: the download path is `/out/sub/b.txt`. -/
theorem c2_local_path_witness :
    ([str "out"] ≠ ([] : List Str) ∧ [str "sub", str "b.txt"] ≠ ([] : List Str)
      ∧ (∀ c ∈ [str "out"], goodComp c)
      ∧ (∀ c ∈ [str "sub", str "b.txt"], goodComp c)
      ∧ [str "sub", str "b.txt"].getLast? = some (str "b.txt"))
    ∧ filePathOf ⟨str "http://h:8089", mkAbs [str "out"], false, str "/cwd"⟩
        ⟨mkAbs [str "sub", str "b.txt"], str "b.txt", false⟩
      = mkAbs [str "out"] ++ mkAbs [str "sub", str "b.txt"] :=
  ⟨⟨by decide, by decide, by decide, by decide, by decide⟩,
   c2_local_path (str "http://h:8089") (str "/cwd") false [str "out"]
     [str "sub", str "b.txt"] (str "b.txt")
     (by decide) (by decide) (by decide) (by decide) (by decide)⟩

end SupernoteSync
